import Mathlib

/-!
Verification of the tic-tac-toe ("ta-te-ti") reinforcement-learning environment
from `environments.py`.

The board is a list of 9 cells; a cell holds `CLEAN_SQUARE` (0, empty),
`AGENT_CHIP` (1) or `PLAYER_CHIP` (2).  `step` embeds `TatetiEnv.step`;
the random opponent is modelled by an explicit selector `pick` that is
required (as a hypothesis where relevant) to return an element of the
non-empty list it is applied to, matching `random.choice`.  A Python
exception is modelled as an error value paired with the board as it stands
when the exception is raised (Python raises before any mutation in these
functions, so the board component equals the input board there).
-/

namespace Tateti

/-- `TatetiEnv.CLEAN_SQUARE`: the empty-cell value. -/
def CLEAN_SQUARE : Nat := 0

/-- `TatetiEnv.AGENT_CHIP`: the agent's mark. -/
def AGENT_CHIP : Nat := 1

/-- `TatetiEnv.PLAYER_CHIP`: the opponent's / human player's mark. -/
def PLAYER_CHIP : Nat := 2

/-- `TatetiEnv.WIN_COMB`: the eight fixed winning index triples. -/
def WIN_COMB : List (List Nat) :=
  [[6, 7, 8], [3, 4, 5], [0, 1, 2], [0, 3, 6], [1, 4, 7], [2, 5, 8], [2, 4, 6], [0, 4, 8]]

/-- `TatetiEnv.INITIAL_STATE`: the all-empty board. -/
def INITIAL_STATE : List Nat := List.replicate 9 0

/-- `{i for i, value in enumerate(board) if value == chip}`: the indices of
the cells currently holding `chip`. -/
def cellsWith (b : List Nat) (chip : Nat) : List Nat :=
  (List.range b.length).filter (fun i => b.getD i 0 == chip)

/-- `any(WIN_COMB[j].issubset({i | board[i] == chip}) for j in range(len(WIN_COMB)))`:
does `chip` own all three cells of some winning triple? -/
def winsFor (b : List Nat) (chip : Nat) : Bool :=
  WIN_COMB.any (fun comb => comb.all (fun i => (cellsWith b chip).contains i))

/-- `[i for i, value in enumerate(board) if value == CLEAN_SQUARE]`:
the list of indices of empty cells. -/
def emptyIndices (b : List Nat) : List Nat := cellsWith b CLEAN_SQUARE

/-- The winner code computed after a placement of `chip` (whose win is
reported as `winCode`): `winCode` if `chip` owns a winning triple, else 3
("finished with no winner") if no cell is free, else 0 ("no winner yet").
This block appears verbatim in `TatetiEnv.step` (chip 1, code 1),
`RealTateti._do_agent_action` (chip 1, code 1) and
`RealTateti._do_player_action` (chip 2, code 2). -/
def winnerAfterMove (b : List Nat) (chip winCode : Nat) : Nat :=
  if winsFor b chip = true then winCode
  else if (emptyIndices b).length = 0 then 3
  else 0

/-- The reward dictionary of `TatetiEnv.step`:
`{0: -1, 1: 20, 2: -2, 3: -1}` keyed by the winner code. -/
def rewardsTable (winner : Nat) : Int :=
  if winner = 0 then -1 else if winner = 1 then 20 else if winner = 2 then -2 else -1

/-- A Python exception escaping one of the environment functions:
`ValueError` for an out-of-range action, `IndexError` for
`random.choice` applied to an empty list. -/
inductive PyErr where
  | valueError : PyErr
  | indexError : PyErr
deriving DecidableEq, Repr

instance {ε α : Type} [DecidableEq ε] [DecidableEq α] : DecidableEq (Except ε α) := by
  intro a b
  cases a <;> cases b
  case error.error x y =>
    exact decidable_of_iff (x = y) (by constructor <;> (intro hh; simp_all))
  case ok.ok x y =>
    exact decidable_of_iff (x = y) (by constructor <;> (intro hh; simp_all))
  case error.ok x y =>
    exact Decidable.isFalse (by simp)
  case ok.error x y =>
    exact Decidable.isFalse (by simp)

/-- `TatetiEnv.step`.  `pick` stands for `random.choice`; the result pairs
the board as it stands when the call ends (unchanged when an exception is
raised, since the raise happens before any mutation) with either the
exception or the `(reward, done)` part of the return value (the returned
observation is the board itself and `info` is always empty). -/
def step (pick : List Nat → Nat) (b : List Nat) (action : Int) :
    List Nat × Except PyErr (Int × Bool) :=
  if 0 ≤ action ∧ action < 9 then
    if b.getD action.toNat 0 = CLEAN_SQUARE then
      let b1 := b.set action.toNat AGENT_CHIP
      let winner1 := winnerAfterMove b1 AGENT_CHIP 1
      if winner1 = 0 then
        if emptyIndices b1 = [] then (b1, Except.error PyErr.indexError)
        else
          let b2 := b1.set (pick (emptyIndices b1)) PLAYER_CHIP
          let winner2 := if winsFor b2 PLAYER_CHIP = true then 2 else winner1
          (b2, Except.ok (rewardsTable winner2, decide (winner2 ≠ 0)))
      else
        let winner2 := if winsFor b1 PLAYER_CHIP = true then 2 else winner1
        (b1, Except.ok (rewardsTable winner2, decide (winner2 ≠ 0)))
    else
      let winner2 := if winsFor b PLAYER_CHIP = true then 2 else winnerAfterMove b AGENT_CHIP 1
      (b, Except.ok (0, decide (winner2 ≠ 0)))
  else (b, Except.error PyErr.valueError)

/-- `RealTateti._do_player_action`: place the human player's chip; returns
the board and, unless a `ValueError` escapes (`none`), the pair
`(done, success)`. -/
def doPlayerAction (b : List Nat) (action : Int) : List Nat × Option (Bool × Bool) :=
  if 0 ≤ action ∧ action < 9 then
    if b.getD action.toNat 0 = CLEAN_SQUARE then
      let b1 := b.set action.toNat PLAYER_CHIP
      (b1, some (decide (winnerAfterMove b1 PLAYER_CHIP 2 ≠ 0), true))
    else
      (b, some (decide (winnerAfterMove b PLAYER_CHIP 2 ≠ 0), false))
  else (b, none)

/-- `RealTateti._do_agent_action`: place the agent's chip; returns the
board and, unless a `ValueError` escapes (`none`), the pair
`(done, success)`. -/
def doAgentAction (b : List Nat) (action : Int) : List Nat × Option (Bool × Bool) :=
  if 0 ≤ action ∧ action < 9 then
    if b.getD action.toNat 0 = CLEAN_SQUARE then
      let b1 := b.set action.toNat AGENT_CHIP
      (b1, some (decide (winnerAfterMove b1 AGENT_CHIP 1 ≠ 0), true))
    else
      (b, some (decide (winnerAfterMove b AGENT_CHIP 1 ≠ 0), false))
  else (b, none)

/-- `numeric_key_to_board` of `RealTateti._get_player_movement`: the
keypad-key to cell-index dictionary, with `none` for a key outside the
table (`dict.get` default). -/
def numeric_key_to_board (k : Int) : Option Nat :=
  if k = 7 then some 0 else if k = 8 then some 1 else if k = 9 then some 2
  else if k = 4 then some 3 else if k = 5 then some 4 else if k = 6 then some 5
  else if k = 1 then some 6 else if k = 2 then some 7 else if k = 3 then some 8
  else none

/-- Helper for `pyInt?`: read a run of decimal digits into an accumulator,
failing on the first non-digit character. -/
def digitsAux : List Char → Nat → Option Nat
  | [], acc => some acc
  | c :: rest, acc =>
      if c.isDigit then digitsAux rest (acc * 10 + (c.toNat - 48)) else none

/-- Modelled from the spec: Python's built-in `int(str)` (not part of the
repository's sources), which parses an optional sign followed by one or
more decimal digits and raises `ValueError` (here `none`) on anything
else.  Python's additional tolerance for surrounding whitespace,
underscores and a leading `+` is irrelevant to the inputs considered here
and is omitted. -/
def pyInt? (line : String) : Option Int :=
  match line.toList with
  | [] => none
  | ['-'] => none
  | '-' :: c :: rest => (digitsAux (c :: rest) 0).map (fun n => -(n : Int))
  | c :: rest => (digitsAux (c :: rest) 0).map (fun n => (n : Int))

/-- One iteration of the reprompt loop of `RealTateti._get_player_movement`:
`int(input(...))` followed by the table lookup.  Python's `int` raises an
uncaught `ValueError` on a string that is not an integer literal, modelled
by `pyInt?` returning `none`; otherwise the table lookup yields either a
cell index (`some`, the loop returns) or `none` (the loop prints
"Invalid Movement" and reprompts). -/
def getPlayerMovementIter (line : String) : Except String (Option Nat) :=
  match pyInt? line with
  | none => Except.error "ValueError: invalid literal for int()"
  | some k => Except.ok (numeric_key_to_board k)

/-- Did `TatetiEnv.step` on board `b` with this action accept the agent's
move (place the agent chip)?  Counts 1 when the action is in range and the
target cell is empty. -/
def stepAccepted (b : List Nat) (action : Int) : Nat :=
  if 0 ≤ action ∧ action < 9 then
    if b.getD action.toNat 0 = CLEAN_SQUARE then 1 else 0
  else 0

/-- Did `TatetiEnv.step` on board `b` with this action place an opponent
chip?  Counts 1 when the agent's move was accepted, the game was still
open after it, and `random.choice` had a non-empty list to pick from. -/
def stepOppPlaced (b : List Nat) (action : Int) : Nat :=
  if 0 ≤ action ∧ action < 9 then
    if b.getD action.toNat 0 = CLEAN_SQUARE then
      if winnerAfterMove (b.set action.toNat AGENT_CHIP) AGENT_CHIP 1 = 0 then
        if emptyIndices (b.set action.toNat AGENT_CHIP) = [] then 0 else 1
      else 0
    else 0
  else 0

/-- The boards reachable from `TatetiEnv.reset` by any sequence of `step`
calls (with no intervening reset), together with the running number of
accepted agent moves and of opponent placements.  `pick` may differ at
each call but always models `random.choice`: on a non-empty list it
returns one of its elements. -/
inductive Reach : List Nat → Nat → Nat → Prop where
  | init : Reach INITIAL_STATE 0 0
  | next (b : List Nat) (acc opp : Nat) (pick : List Nat → Nat) (action : Int) :
      Reach b acc opp → (∀ l, l ≠ [] → pick l ∈ l) →
      Reach (step pick b action).1 (acc + stepAccepted b action) (opp + stepOppPlaced b action)

/-- `chip` owns all three cells of some winning triple (propositional form
of `winsFor`). -/
def WinsP (b : List Nat) (chip : Nat) : Prop :=
  ∃ comb ∈ WIN_COMB, ∀ i ∈ comb, b.getD i 0 = chip

/-- Number of cells of `b` holding `chip`. -/
def cellCount (b : List Nat) (chip : Nat) : Nat :=
  b.countP (fun v => v == chip)

/-- Number of non-empty cells of `b`. -/
def markCount (b : List Nat) : Nat :=
  b.countP (fun v => !(v == CLEAN_SQUARE))

/-- Inductive invariant of the automated environment: the board has 9 cells,
every cell value is a valid chip, and either the agent already owns a line,
or the board is full, or both players have placed equally many chips. -/
def Inv (b : List Nat) : Prop :=
  b.length = 9 ∧ (∀ x ∈ b, x ≤ 2) ∧
    (winsFor b AGENT_CHIP = true ∨ emptyIndices b = [] ∨
      cellCount b AGENT_CHIP = cellCount b PLAYER_CHIP)

@[simp] lemma CLEAN_SQUARE_val : CLEAN_SQUARE = 0 := rfl

@[simp] lemma AGENT_CHIP_val : AGENT_CHIP = 1 := rfl

@[simp] lemma PLAYER_CHIP_val : PLAYER_CHIP = 2 := rfl

lemma getD_set (b : List Nat) (j i v : Nat) :
    (b.set j v).getD i 0 = if j = i ∧ j < b.length then v else b.getD i 0 := by
  rw [List.getD_eq_getElem?_getD, List.getElem?_set, List.getD_eq_getElem?_getD]
  by_cases h1 : j = i
  · subst h1
    by_cases h2 : j < b.length
    · simp [h2]
    · have hnone : b[j]? = none := List.getElem?_eq_none (by omega)
      simp [h2, hnone]
  · simp [h1]

lemma mem_cellsWith {b : List Nat} {chip j : Nat} :
    j ∈ cellsWith b chip ↔ j < b.length ∧ b.getD j 0 = chip := by
  simp [cellsWith, List.mem_filter, List.mem_range]

lemma winsFor_iff {b : List Nat} {chip : Nat} :
    winsFor b chip = true ↔
      ∃ comb ∈ WIN_COMB, ∀ i ∈ comb, i < b.length ∧ b.getD i 0 = chip := by
  simp only [winsFor, List.any_eq_true, List.all_eq_true, List.contains,
    List.elem_iff, mem_cellsWith]

lemma winsFor_iff_winsP {b : List Nat} {chip : Nat} (hb : b.length = 9) :
    winsFor b chip = true ↔ WinsP b chip := by
  rw [winsFor_iff]
  constructor
  · rintro ⟨c, hc, h⟩
    exact ⟨c, hc, fun i hi => (h i hi).2⟩
  · rintro ⟨c, hc, h⟩
    refine ⟨c, hc, fun i hi => ⟨?_, h i hi⟩⟩
    have hlt : ∀ c ∈ WIN_COMB, ∀ i ∈ c, i < 9 := by decide
    rw [hb]
    exact hlt c hc i hi

lemma winsFor_congr {b b' : List Nat} {chip : Nat} (hlen : b'.length = b.length)
    (h : ∀ i, b'.getD i 0 = chip ↔ b.getD i 0 = chip) :
    winsFor b' chip = winsFor b chip := by
  rw [Bool.eq_iff_iff, winsFor_iff, winsFor_iff]
  constructor
  · rintro ⟨c, hc, hh⟩
    exact ⟨c, hc, fun i hi => ⟨by rw [← hlen]; exact (hh i hi).1, (h i).1 (hh i hi).2⟩⟩
  · rintro ⟨c, hc, hh⟩
    exact ⟨c, hc, fun i hi => ⟨by rw [hlen]; exact (hh i hi).1, (h i).2 (hh i hi).2⟩⟩

lemma winsFor_set_of_ne {b : List Nat} {j v chip : Nat}
    (hv : v ≠ chip) (hj : b.getD j 0 ≠ chip) :
    winsFor (b.set j v) chip = winsFor b chip := by
  refine winsFor_congr (List.length_set b j v) fun i => ?_
  rw [getD_set]
  split_ifs with h
  · obtain ⟨h1, _⟩ := h
    subst h1
    exact ⟨fun hh => absurd hh hv, fun hh => absurd hh hj⟩
  · exact Iff.rfl

lemma winsFor_set_mono {b : List Nat} (j chip : Nat)
    (h : winsFor b chip = true) : winsFor (b.set j chip) chip = true := by
  rw [winsFor_iff] at h ⊢
  obtain ⟨c, hc, hh⟩ := h
  refine ⟨c, hc, fun i hi => ?_⟩
  obtain ⟨h1, h2⟩ := hh i hi
  refine ⟨by simpa using h1, ?_⟩
  rw [getD_set]
  split_ifs with hcase
  · rfl
  · exact h2

lemma countP_set (p : Nat → Bool) :
    ∀ (b : List Nat) (j v : Nat), j < b.length →
      (b.set j v).countP p + (if p (b.getD j 0) = true then 1 else 0)
        = b.countP p + (if p v = true then 1 else 0) := by
  intro b
  induction b with
  | nil => intro j v h; simp at h
  | cons x xs ih =>
    intro j v h
    cases j with
    | zero =>
      simp only [List.set_cons_zero, List.countP_cons, List.getD_cons_zero]
      omega
    | succ n =>
      simp only [List.set_cons_succ, List.countP_cons, List.getD_cons_succ]
      have := ih n v (by simpa using h)
      omega

lemma countP_chips (b : List Nat) (h : ∀ x ∈ b, x ≤ 2) :
    b.countP (fun v => v == 0) + b.countP (fun v => v == 1)
        + b.countP (fun v => v == 2) = b.length := by
  induction b with
  | nil => simp
  | cons x xs ih =>
    have hx : x ≤ 2 := h x (by simp)
    have ih2 := ih (fun y hy => h y (by simp [hy]))
    simp only [List.countP_cons, List.length_cons]
    interval_cases x <;> simp <;> omega

lemma length_cellsWith (b : List Nat) (chip : Nat) :
    (cellsWith b chip).length = cellCount b chip := by
  unfold cellsWith cellCount
  induction b with
  | nil => simp
  | cons x xs ih =>
    rw [List.length_cons, List.range_succ_eq_map, List.filter_cons, List.filter_map]
    have hfun : ((fun i => (x :: xs).getD i 0 == chip) ∘ Nat.succ)
        = (fun i => xs.getD i 0 == chip) := by
      funext i
      simp
    rw [hfun, List.countP_cons]
    by_cases hx : (x == chip) = true
    · rw [if_pos (by simpa using hx), List.length_cons, List.length_map, ih]
      simp [hx]
    · rw [if_neg (by simpa using hx), List.length_map, ih]
      simp [hx]

lemma mem_emptyIndices {b : List Nat} {j : Nat} :
    j ∈ emptyIndices b ↔ j < b.length ∧ b.getD j 0 = 0 :=
  mem_cellsWith

lemma length_emptyIndices (b : List Nat) :
    (emptyIndices b).length = cellCount b 0 :=
  length_cellsWith b 0

lemma emptyIndices_ne_nil_iff {b : List Nat} :
    emptyIndices b ≠ [] ↔ cellCount b 0 ≠ 0 := by
  rw [← length_emptyIndices, Ne, Ne, ← List.length_eq_zero]

lemma cellCount_set (b : List Nat) (j v chip : Nat) (hj : j < b.length) :
    cellCount (b.set j v) chip + (if b.getD j 0 = chip then 1 else 0)
      = cellCount b chip + (if v = chip then 1 else 0) := by
  have h := countP_set (fun x => x == chip) b j v hj
  unfold cellCount
  simpa using h

lemma markCount_set (b : List Nat) (j v : Nat) (hj : j < b.length) :
    markCount (b.set j v) + (if b.getD j 0 = 0 then 0 else 1)
      = markCount b + (if v = 0 then 0 else 1) := by
  have h := countP_set (fun x => !(x == CLEAN_SQUARE)) b j v hj
  unfold markCount
  unfold CLEAN_SQUARE at h ⊢
  by_cases h1 : b.getD j 0 = 0 <;> by_cases h2 : v = 0 <;> simp [h1, h2] at h ⊢ <;> omega

lemma cellCount_set_untouched {b : List Nat} {j v chip : Nat} (hj : j < b.length)
    (h1 : b.getD j 0 ≠ chip) (h2 : v ≠ chip) :
    cellCount (b.set j v) chip = cellCount b chip := by
  have hh := cellCount_set b j v chip hj
  rw [if_neg h1, if_neg h2] at hh
  omega

lemma cellCount_set_new {b : List Nat} {j v chip : Nat} (hj : j < b.length)
    (h1 : b.getD j 0 ≠ chip) (h2 : v = chip) :
    cellCount (b.set j v) chip = cellCount b chip + 1 := by
  have hh := cellCount_set b j v chip hj
  rw [if_neg h1, if_pos h2] at hh
  omega

lemma cellCount_set_removed {b : List Nat} {j v chip : Nat} (hj : j < b.length)
    (h1 : b.getD j 0 = chip) (h2 : v ≠ chip) :
    cellCount (b.set j v) chip + 1 = cellCount b chip := by
  have hh := cellCount_set b j v chip hj
  rw [if_pos h1, if_neg h2] at hh
  omega

lemma markCount_set_new {b : List Nat} {j v : Nat} (hj : j < b.length)
    (h1 : b.getD j 0 = 0) (h2 : v ≠ 0) :
    markCount (b.set j v) = markCount b + 1 := by
  have hh := markCount_set b j v hj
  rw [if_pos h1, if_neg h2] at hh
  omega

lemma winnerAfterMove_cases (b : List Nat) (chip code : Nat) :
    (winnerAfterMove b chip code = code ∧ winsFor b chip = true) ∨
      (winnerAfterMove b chip code = 3 ∧ winsFor b chip = false ∧ emptyIndices b = []) ∨
      (winnerAfterMove b chip code = 0 ∧ winsFor b chip = false ∧ emptyIndices b ≠ []) := by
  unfold winnerAfterMove
  by_cases h1 : winsFor b chip = true
  · exact Or.inl ⟨by rw [if_pos h1], h1⟩
  · by_cases h2 : (emptyIndices b).length = 0
    · refine Or.inr (Or.inl ⟨by rw [if_neg h1, if_pos h2], ?_, List.length_eq_zero.mp h2⟩)
      simpa using h1
    · refine Or.inr (Or.inr ⟨by rw [if_neg h1, if_neg h2], ?_, ?_⟩)
      · simpa using h1
      · intro hnil
        exact h2 (by rw [hnil]; rfl)

lemma winnerAfterMove_eq_zero {b : List Nat} {chip code : Nat} (hcode : code ≠ 0)
    (h : winnerAfterMove b chip code = 0) :
    winsFor b chip = false ∧ emptyIndices b ≠ [] := by
  rcases winnerAfterMove_cases b chip code with ⟨h1, _⟩ | ⟨h1, _⟩ | ⟨_, h2, h3⟩
  · exact absurd (h1 ▸ h) hcode
  · exact absurd (h1 ▸ h) (by omega)
  · exact ⟨h2, h3⟩

lemma winnerAfterMove_ne_zero {b : List Nat} {chip code : Nat}
    (hwin : winsFor b chip = true ∨ emptyIndices b = []) (hcode : code ≠ 0) :
    winnerAfterMove b chip code ≠ 0 := by
  rcases winnerAfterMove_cases b chip code with ⟨h1, _⟩ | ⟨h1, _⟩ | ⟨_, h2, h3⟩
  · omega
  · omega
  · rcases hwin with hw | hw
    · rw [h2] at hw; exact absurd hw (by simp)
    · exact absurd hw h3

lemma step_out_of_range (pick : List Nat → Nat) (b : List Nat) (action : Int)
    (h : ¬(0 ≤ action ∧ action < 9)) :
    step pick b action = (b, Except.error PyErr.valueError) := by
  unfold step
  rw [if_neg h]

lemma step_occupied (pick : List Nat → Nat) (b : List Nat) (action : Int)
    (h : 0 ≤ action ∧ action < 9) (ho : ¬b.getD action.toNat 0 = CLEAN_SQUARE) :
    step pick b action =
      (b, Except.ok (0, decide ((if winsFor b PLAYER_CHIP = true then 2
        else winnerAfterMove b AGENT_CHIP 1) ≠ 0))) := by
  unfold step
  rw [if_pos h, if_neg ho]

lemma step_accepted_closed (pick : List Nat → Nat) (b : List Nat) (action : Int)
    (h : 0 ≤ action ∧ action < 9) (he : b.getD action.toNat 0 = CLEAN_SQUARE)
    (hw : ¬winnerAfterMove (b.set action.toNat AGENT_CHIP) AGENT_CHIP 1 = 0) :
    step pick b action =
      (b.set action.toNat AGENT_CHIP,
        Except.ok
          (rewardsTable (if winsFor (b.set action.toNat AGENT_CHIP) PLAYER_CHIP = true then 2
              else winnerAfterMove (b.set action.toNat AGENT_CHIP) AGENT_CHIP 1),
            decide ((if winsFor (b.set action.toNat AGENT_CHIP) PLAYER_CHIP = true then 2
              else winnerAfterMove (b.set action.toNat AGENT_CHIP) AGENT_CHIP 1) ≠ 0))) := by
  unfold step
  rw [if_pos h, if_pos he, if_neg hw]

lemma step_accepted_open (pick : List Nat → Nat) (b : List Nat) (action : Int)
    (h : 0 ≤ action ∧ action < 9) (he : b.getD action.toNat 0 = CLEAN_SQUARE)
    (hw : winnerAfterMove (b.set action.toNat AGENT_CHIP) AGENT_CHIP 1 = 0)
    (hne : ¬emptyIndices (b.set action.toNat AGENT_CHIP) = []) :
    step pick b action =
      ((b.set action.toNat AGENT_CHIP).set
          (pick (emptyIndices (b.set action.toNat AGENT_CHIP))) PLAYER_CHIP,
        Except.ok
          (rewardsTable (if winsFor ((b.set action.toNat AGENT_CHIP).set
                (pick (emptyIndices (b.set action.toNat AGENT_CHIP))) PLAYER_CHIP)
                PLAYER_CHIP = true then 2 else 0),
            decide ((if winsFor ((b.set action.toNat AGENT_CHIP).set
                (pick (emptyIndices (b.set action.toNat AGENT_CHIP))) PLAYER_CHIP)
                PLAYER_CHIP = true then 2 else 0) ≠ 0))) := by
  unfold step
  rw [if_pos h, if_pos he, if_pos hw, if_neg hne, hw]

lemma step_ok_of_inRange (pick : List Nat → Nat) (b : List Nat) (action : Int)
    (h : 0 ≤ action ∧ action < 9) :
    ∃ p : Int × Bool, (step pick b action).2 = Except.ok p := by
  by_cases ho : b.getD action.toNat 0 = CLEAN_SQUARE
  · by_cases hw : winnerAfterMove (b.set action.toNat AGENT_CHIP) AGENT_CHIP 1 = 0
    · have hne := (winnerAfterMove_eq_zero (by omega) hw).2
      rw [step_accepted_open pick b action h ho hw hne]
      exact ⟨_, rfl⟩
    · rw [step_accepted_closed pick b action h ho hw]
      exact ⟨_, rfl⟩
  · rw [step_occupied pick b action h ho]
    exact ⟨_, rfl⟩

lemma inv_step {b : List Nat} (hInv : Inv b)
    (pick : List Nat → Nat) (action : Int) (hpick : ∀ l, l ≠ [] → pick l ∈ l) :
    Inv (step pick b action).1 ∧
      markCount (step pick b action).1
        = markCount b + stepAccepted b action + stepOppPlaced b action := by
  obtain ⟨hlen, hval, hdisj⟩ := hInv
  by_cases h : 0 ≤ action ∧ action < 9
  · have halen : action.toNat < b.length := by omega
    by_cases ho : b.getD action.toNat 0 = CLEAN_SQUARE
    · have ho0 : b.getD action.toNat 0 = 0 := by simpa using ho
      have hlen1 : (b.set action.toNat AGENT_CHIP).length = 9 := by
        rw [List.length_set]; exact hlen
      have hval1 : ∀ x ∈ b.set action.toNat AGENT_CHIP, x ≤ 2 := by
        intro x hx
        rcases List.mem_or_eq_of_mem_set hx with h' | h'
        · exact hval x h'
        · rw [h']; decide
      have hmark1 : markCount (b.set action.toNat AGENT_CHIP) = markCount b + 1 :=
        markCount_set_new halen ho0 (by decide)
      by_cases hw : winnerAfterMove (b.set action.toNat AGENT_CHIP) AGENT_CHIP 1 = 0
      · have hne := (winnerAfterMove_eq_zero (by omega) hw).2
        rw [step_accepted_open pick b action h ho hw hne]
        dsimp only
        unfold stepAccepted stepOppPlaced
        rw [if_pos h, if_pos h, if_pos ho, if_pos ho, if_pos hw, if_neg hne]
        have hjmem : pick (emptyIndices (b.set action.toNat AGENT_CHIP))
            ∈ emptyIndices (b.set action.toNat AGENT_CHIP) := hpick _ hne
        obtain ⟨hjlt, hjempty⟩ := mem_emptyIndices.mp hjmem
        have hcc : cellCount b AGENT_CHIP = cellCount b PLAYER_CHIP := by
          rcases hdisj with hd | hd | hd
          · exfalso
            have hm : winsFor (b.set action.toNat AGENT_CHIP) AGENT_CHIP = true :=
              winsFor_set_mono _ _ hd
            have hz := (winnerAfterMove_eq_zero (by omega) hw).1
            rw [hm] at hz
            exact absurd hz (by decide)
          · exfalso
            have hmem : action.toNat ∈ emptyIndices b :=
              mem_emptyIndices.mpr ⟨halen, ho0⟩
            rw [hd] at hmem
            simp at hmem
          · exact hd
        have hc1a : cellCount (b.set action.toNat AGENT_CHIP) AGENT_CHIP
            = cellCount b AGENT_CHIP + 1 :=
          cellCount_set_new halen (by rw [ho0]; decide) rfl
        have hc2a : cellCount (b.set action.toNat AGENT_CHIP) PLAYER_CHIP
            = cellCount b PLAYER_CHIP :=
          cellCount_set_untouched halen (by rw [ho0]; decide) (by decide)
        have hc1b : cellCount ((b.set action.toNat AGENT_CHIP).set
              (pick (emptyIndices (b.set action.toNat AGENT_CHIP))) PLAYER_CHIP) AGENT_CHIP
            = cellCount (b.set action.toNat AGENT_CHIP) AGENT_CHIP :=
          cellCount_set_untouched hjlt (by rw [hjempty]; decide) (by decide)
        have hc2b : cellCount ((b.set action.toNat AGENT_CHIP).set
              (pick (emptyIndices (b.set action.toNat AGENT_CHIP))) PLAYER_CHIP) PLAYER_CHIP
            = cellCount (b.set action.toNat AGENT_CHIP) PLAYER_CHIP + 1 :=
          cellCount_set_new hjlt (by rw [hjempty]; decide) rfl
        have hmark2 : markCount ((b.set action.toNat AGENT_CHIP).set
              (pick (emptyIndices (b.set action.toNat AGENT_CHIP))) PLAYER_CHIP)
            = markCount (b.set action.toNat AGENT_CHIP) + 1 :=
          markCount_set_new hjlt hjempty (by decide)
        refine ⟨⟨by rw [List.length_set]; exact hlen1, ?_, Or.inr (Or.inr (by omega))⟩, by omega⟩
        intro x hx
        rcases List.mem_or_eq_of_mem_set hx with h' | h'
        · exact hval1 x h'
        · rw [h']; decide
      · rw [step_accepted_closed pick b action h ho hw]
        dsimp only
        unfold stepAccepted stepOppPlaced
        rw [if_pos h, if_pos h, if_pos ho, if_pos ho, if_neg hw]
        refine ⟨⟨hlen1, hval1, ?_⟩, by omega⟩
        rcases winnerAfterMove_cases (b.set action.toNat AGENT_CHIP) AGENT_CHIP 1 with
          ⟨_, h1⟩ | ⟨_, _, h2⟩ | ⟨h1, _⟩
        · exact Or.inl h1
        · exact Or.inr (Or.inl h2)
        · exact absurd h1 hw
    · rw [step_occupied pick b action h ho]
      dsimp only
      unfold stepAccepted stepOppPlaced
      rw [if_pos h, if_pos h, if_neg ho, if_neg ho]
      exact ⟨⟨hlen, hval, hdisj⟩, by omega⟩
  · rw [step_out_of_range pick b action h]
    dsimp only
    unfold stepAccepted stepOppPlaced
    rw [if_neg h, if_neg h]
    exact ⟨⟨hlen, hval, hdisj⟩, by omega⟩

lemma cellCount_partition (b : List Nat) (h : ∀ x ∈ b, x ≤ 2) :
    cellCount b 0 + cellCount b 1 + cellCount b 2 = b.length :=
  countP_chips b h

lemma counts_eq_of_open {b : List Nat} (hInv : Inv b) {a : Nat} (ha : a < b.length)
    (ho : b.getD a 0 = 0)
    (hw : winnerAfterMove (b.set a AGENT_CHIP) AGENT_CHIP 1 = 0) :
    cellCount b AGENT_CHIP = cellCount b PLAYER_CHIP := by
  obtain ⟨hlen, hval, hdisj⟩ := hInv
  rcases hdisj with hd | hd | hd
  · exfalso
    have hm : winsFor (b.set a AGENT_CHIP) AGENT_CHIP = true := winsFor_set_mono _ _ hd
    have hz := (winnerAfterMove_eq_zero (by decide) hw).1
    rw [hm] at hz
    exact absurd hz (by decide)
  · exfalso
    have hmem : a ∈ emptyIndices b := mem_emptyIndices.mpr ⟨ha, ho⟩
    rw [hd] at hmem
    simp at hmem
  · exact hd

lemma empties_pos_after_opp {b : List Nat} (hInv : Inv b) {a j : Nat}
    (ha : a < b.length) (ho : b.getD a 0 = 0)
    (hw : winnerAfterMove (b.set a AGENT_CHIP) AGENT_CHIP 1 = 0)
    (hj : j ∈ emptyIndices (b.set a AGENT_CHIP)) :
    emptyIndices ((b.set a AGENT_CHIP).set j PLAYER_CHIP) ≠ [] := by
  have hcc := counts_eq_of_open hInv ha ho hw
  obtain ⟨hlen, hval, _⟩ := hInv
  obtain ⟨hjlt, hj0⟩ := mem_emptyIndices.mp hj
  have hval1 : ∀ x ∈ b.set a AGENT_CHIP, x ≤ 2 := by
    intro x hx
    rcases List.mem_or_eq_of_mem_set hx with h' | h'
    · exact hval x h'
    · rw [h']; decide
  have hpart : cellCount (b.set a AGENT_CHIP) 0 + cellCount (b.set a AGENT_CHIP) 1
      + cellCount (b.set a AGENT_CHIP) 2 = 9 := by
    rw [cellCount_partition (b.set a AGENT_CHIP) hval1, List.length_set]
    exact hlen
  have hc1a : cellCount (b.set a AGENT_CHIP) AGENT_CHIP = cellCount b AGENT_CHIP + 1 :=
    cellCount_set_new ha (by rw [ho]; decide) rfl
  have hc2a : cellCount (b.set a AGENT_CHIP) PLAYER_CHIP = cellCount b PLAYER_CHIP :=
    cellCount_set_untouched ha (by rw [ho]; decide) (by decide)
  have hc0b2 : cellCount ((b.set a AGENT_CHIP).set j PLAYER_CHIP) 0 + 1
      = cellCount (b.set a AGENT_CHIP) 0 :=
    cellCount_set_removed hjlt hj0 (by decide)
  rw [emptyIndices_ne_nil_iff]
  simp only [AGENT_CHIP_val, PLAYER_CHIP_val] at hcc hc1a hc2a hc0b2 hpart ⊢
  omega

lemma headD_mem : ∀ (l : List Nat), l ≠ [] → l.headD 0 ∈ l := by
  intro l h
  cases l with
  | nil => exact absurd rfl h
  | cons x xs => simp

lemma reach_inv {b : List Nat} {acc opp : Nat} (h : Reach b acc opp) :
    Inv b ∧ markCount b = acc + opp := by
  induction h with
  | init => exact ⟨by unfold Inv; decide, by decide⟩
  | next b acc opp pick action hreach hpick ih =>
    obtain ⟨hInv, hmark⟩ := ih
    obtain ⟨hInv2, hmark2⟩ := inv_step hInv pick action hpick
    exact ⟨hInv2, by omega⟩

/-- C3: for every board and every in-range action whose target cell is not
empty, the move is rejected: `TatetiEnv.step` leaves the board completely
unchanged (in particular the opponent does not move) and reports reward 0,
and `RealTateti._do_player_action` / `_do_agent_action` leave the board
unchanged, return `success = false`, and report the done flag computed on
the unchanged board (so the Outcome is unchanged). -/
theorem occupied_move_rejected (pick : List Nat → Nat) (b : List Nat) (action : Int)
    (h : 0 ≤ action ∧ action < 9) (ho : b.getD action.toNat 0 ≠ CLEAN_SQUARE) :
    (step pick b action).1 = b ∧
    (∃ d, (step pick b action).2 = Except.ok (0, d)) ∧
    doPlayerAction b action
      = (b, some (decide (winnerAfterMove b PLAYER_CHIP 2 ≠ 0), false)) ∧
    doAgentAction b action
      = (b, some (decide (winnerAfterMove b AGENT_CHIP 1 ≠ 0), false)) := by
  refine ⟨?_, ?_, ?_, ?_⟩
  · rw [step_occupied pick b action h ho]
  · rw [step_occupied pick b action h ho]
    exact ⟨_, rfl⟩
  · unfold doPlayerAction
    rw [if_pos h, if_neg ho]
  · unfold doAgentAction
    rw [if_pos h, if_neg ho]

/-- C3 witness: on the board with cell 0 already taken by the agent, the
move 0 is rejected by every entry point and nothing changes. -/
theorem occupied_move_rejected_witness :
    (step (fun l => l.headD 0) [1, 0, 0, 0, 0, 0, 0, 0, 0] 0).1
        = [1, 0, 0, 0, 0, 0, 0, 0, 0] ∧
      (∃ d, (step (fun l => l.headD 0) [1, 0, 0, 0, 0, 0, 0, 0, 0] 0).2
        = Except.ok (0, d)) ∧
      doPlayerAction [1, 0, 0, 0, 0, 0, 0, 0, 0] 0
        = ([1, 0, 0, 0, 0, 0, 0, 0, 0],
            some (decide (winnerAfterMove [1, 0, 0, 0, 0, 0, 0, 0, 0] PLAYER_CHIP 2 ≠ 0),
              false)) ∧
      doAgentAction [1, 0, 0, 0, 0, 0, 0, 0, 0] 0
        = ([1, 0, 0, 0, 0, 0, 0, 0, 0],
            some (decide (winnerAfterMove [1, 0, 0, 0, 0, 0, 0, 0, 0] AGENT_CHIP 1 ≠ 0),
              false)) :=
  occupied_move_rejected (fun l => l.headD 0) [1, 0, 0, 0, 0, 0, 0, 0, 0] 0
    (by decide) (by decide)

/-- C6: for every action outside [0,8], `TatetiEnv.step`,
`RealTateti._do_agent_action` and `RealTateti._do_player_action` raise
(`ValueError`, modelled as the error result) with the board exactly as it
was before the call; for every action in [0,8] no error is raised. -/
theorem invalid_action_spec (pick : List Nat → Nat) (b : List Nat) (action : Int) :
    (¬(0 ≤ action ∧ action < 9) →
      step pick b action = (b, Except.error PyErr.valueError) ∧
      doAgentAction b action = (b, none) ∧
      doPlayerAction b action = (b, none)) ∧
    ((0 ≤ action ∧ action < 9) →
      (∃ p, (step pick b action).2 = Except.ok p) ∧
      (∃ q, (doAgentAction b action).2 = some q) ∧
      (∃ q, (doPlayerAction b action).2 = some q)) := by
  constructor
  · intro h
    refine ⟨step_out_of_range pick b action h, ?_, ?_⟩
    · unfold doAgentAction
      rw [if_neg h]
    · unfold doPlayerAction
      rw [if_neg h]
  · intro h
    refine ⟨step_ok_of_inRange pick b action h, ?_, ?_⟩
    · unfold doAgentAction
      rw [if_pos h]
      by_cases ho : b.getD action.toNat 0 = CLEAN_SQUARE
      · rw [if_pos ho]
        exact ⟨_, rfl⟩
      · rw [if_neg ho]
        exact ⟨_, rfl⟩
    · unfold doPlayerAction
      rw [if_pos h]
      by_cases ho : b.getD action.toNat 0 = CLEAN_SQUARE
      · rw [if_pos ho]
        exact ⟨_, rfl⟩
      · rw [if_neg ho]
        exact ⟨_, rfl⟩

/-- C6 witness: action 9 raises with the board untouched; action 0 does not
raise. -/
theorem invalid_action_spec_witness :
    (step (fun l => l.headD 0) INITIAL_STATE 9
        = (INITIAL_STATE, Except.error PyErr.valueError) ∧
      doAgentAction INITIAL_STATE 9 = (INITIAL_STATE, none) ∧
      doPlayerAction INITIAL_STATE 9 = (INITIAL_STATE, none)) ∧
    (∃ p, (step (fun l => l.headD 0) INITIAL_STATE 0).2 = Except.ok p) :=
  ⟨(invalid_action_spec (fun l => l.headD 0) INITIAL_STATE 9).1 (by decide),
    ((invalid_action_spec (fun l => l.headD 0) INITIAL_STATE 0).2 (by decide)).1⟩

/-- C10: whenever the opponent-move branch of `TatetiEnv.step` is reached
(agent's move accepted and the game still open after it), the list of empty
cell indices handed to `random.choice` is non-empty, and consequently
`step` can never end in the `IndexError` of `random.choice` on an empty
list. -/
theorem opponent_choice_never_empty (pick : List Nat → Nat) (b : List Nat) (action : Int) :
    (b.getD action.toNat 0 = CLEAN_SQUARE →
      winnerAfterMove (b.set action.toNat AGENT_CHIP) AGENT_CHIP 1 = 0 →
      emptyIndices (b.set action.toNat AGENT_CHIP) ≠ []) ∧
    (step pick b action).2 ≠ Except.error PyErr.indexError := by
  constructor
  · intro _ hw
    exact (winnerAfterMove_eq_zero (by decide) hw).2
  · by_cases h : 0 ≤ action ∧ action < 9
    · obtain ⟨p, hp⟩ := step_ok_of_inRange pick b action h
      rw [hp]
      simp
    · rw [step_out_of_range pick b action h]
      simp

/-- C7 counterexample: the keypad table maps key 1 to cell index 6, not to
index 0 as the claim's "keys 1,2,3 map to indices 0,1,2" requires. -/
theorem keypad_claim_counterexample :
    numeric_key_to_board 1 = some 6 ∧ ¬numeric_key_to_board 1 = some 0 := by
  decide

/-- C7 amended: the keypad table maps keys 7,8,9 to cell indices 0,1,2,
keys 4,5,6 to 3,4,5 and keys 1,2,3 to 6,7,8 — i.e. key k is sent to the
cell index of k's position in the keypad layout (7 8 9 / 4 5 6 / 1 2 3)
under the indexing in which index 0 is the TOP-left cell and index 8 the
bottom-right cell in row-major order (matching `render`, which prints
cells 0,1,2 as its first row). -/
theorem keypad_table_spec :
    numeric_key_to_board 7 = some 0 ∧ numeric_key_to_board 8 = some 1 ∧
    numeric_key_to_board 9 = some 2 ∧ numeric_key_to_board 4 = some 3 ∧
    numeric_key_to_board 5 = some 4 ∧ numeric_key_to_board 6 = some 5 ∧
    numeric_key_to_board 1 = some 6 ∧ numeric_key_to_board 2 = some 7 ∧
    numeric_key_to_board 3 = some 8 := by
  decide

/-- C8: `RealTateti._get_player_movement` calls `int(movement)` with no
exception handler, so an input line that is not an integer literal (such
as "abc") makes the function terminate with an uncaught `ValueError`,
contradicting the claim that it never terminates with an error.  Integer
inputs outside the keypad table (such as "0") do reprompt, and table keys
return the mapped cell index. -/
theorem getPlayerMovement_nonint_raises :
    getPlayerMovementIter "abc" = Except.error "ValueError: invalid literal for int()" ∧
    getPlayerMovementIter "0" = Except.ok none ∧
    getPlayerMovementIter "7" = Except.ok (some 0) := by
  refine ⟨by decide, by decide, by decide⟩

/-- C2: after a successful placement of a mark, the recomputed winner code
is the mover's win code exactly when the mover owns one of the 8 fixed
win lines (only the mover's mark is inspected, and win takes priority over
board-full), else the draw code 3 exactly when no empty cell remains, else
0 (in progress); the 8 win lines are, as sets, exactly
{0,1,2},{3,4,5},{6,7,8},{0,3,6},{1,4,7},{2,5,8},{2,4,6},{0,4,8}; the
placement functions feed the updated board to this computation; and the
worked examples hold (agent rows {0,1,2} and {6,7,8} win, the standard
drawn grid yields 3). -/
theorem winnerAfterMove_spec (b : List Nat) (chip code : Nat) (action : Int)
    (hb : b.length = 9) (hc0 : code ≠ 0) (hc3 : code ≠ 3) :
    ((winnerAfterMove b chip code = code ↔ WinsP b chip) ∧
      (winnerAfterMove b chip code = 3 ↔ ¬WinsP b chip ∧ emptyIndices b = []) ∧
      (winnerAfterMove b chip code = 0 ↔ ¬WinsP b chip ∧ emptyIndices b ≠ [])) ∧
    (WIN_COMB.map List.toFinset).Perm
      ([[0, 1, 2], [3, 4, 5], [6, 7, 8], [0, 3, 6], [1, 4, 7], [2, 5, 8],
        [2, 4, 6], [0, 4, 8]].map List.toFinset) ∧
    (0 ≤ action ∧ action < 9 → b.getD action.toNat 0 = CLEAN_SQUARE →
      doAgentAction b action = (b.set action.toNat AGENT_CHIP,
        some (decide (winnerAfterMove (b.set action.toNat AGENT_CHIP) AGENT_CHIP 1 ≠ 0),
          true)) ∧
      doPlayerAction b action = (b.set action.toNat PLAYER_CHIP,
        some (decide (winnerAfterMove (b.set action.toNat PLAYER_CHIP) PLAYER_CHIP 2 ≠ 0),
          true))) ∧
    winnerAfterMove [1, 1, 1, 2, 2, 0, 0, 0, 0] AGENT_CHIP 1 = 1 ∧
    winnerAfterMove [2, 2, 0, 0, 0, 0, 1, 1, 1] AGENT_CHIP 1 = 1 ∧
    winnerAfterMove [1, 2, 1, 2, 1, 1, 2, 1, 2] AGENT_CHIP 1 = 3 := by
  have hP : winsFor b chip = true ↔ WinsP b chip := winsFor_iff_winsP hb
  refine ⟨?_, by decide, ?_, by decide, by decide, by decide⟩
  · rcases winnerAfterMove_cases b chip code with ⟨h1, h2⟩ | ⟨h1, h2, h3⟩ | ⟨h1, h2, h3⟩
    · refine ⟨⟨fun _ => hP.mp h2, fun _ => h1⟩, ?_, ?_⟩
      · constructor
        · intro hh
          omega
        · rintro ⟨hn, _⟩
          exact absurd (hP.mp h2) hn
      · constructor
        · intro hh
          omega
        · rintro ⟨hn, _⟩
          exact absurd (hP.mp h2) hn
    · have hnp : ¬WinsP b chip := fun hh => by rw [hP.mpr hh] at h2; cases h2
      refine ⟨⟨fun hh => absurd rfl (by omega : ¬winnerAfterMove b chip code
          = winnerAfterMove b chip code), fun hh => absurd (hP.mpr hh) (by rw [h2]; decide)⟩,
        ⟨fun _ => ⟨hnp, h3⟩, fun _ => h1⟩, ?_⟩
      constructor
      · intro hh
        omega
      · rintro ⟨_, hn⟩
        exact absurd h3 hn
    · have hnp : ¬WinsP b chip := fun hh => by rw [hP.mpr hh] at h2; cases h2
      refine ⟨⟨fun hh => ?_, fun hh => absurd (hP.mpr hh) (by rw [h2]; decide)⟩,
        ⟨fun hh => ?_, fun hhh => ?_⟩, ⟨fun _ => ⟨hnp, h3⟩, fun _ => h1⟩⟩
      · omega
      · omega
      · obtain ⟨_, hnil⟩ := hhh
        exact absurd hnil h3
  · rintro hrange hempty
    constructor
    · unfold doAgentAction
      rw [if_pos hrange, if_pos hempty]
    · unfold doPlayerAction
      rw [if_pos hrange, if_pos hempty]

/-- C2 witness: the characterization instantiated at the board with agent
marks on cells 0 and 1 after placing the third mark at cell 2. -/
theorem winnerAfterMove_spec_witness :
    (winnerAfterMove [1, 1, 1, 2, 2, 0, 0, 0, 0] AGENT_CHIP 1 = 1
      ↔ WinsP [1, 1, 1, 2, 2, 0, 0, 0, 0] AGENT_CHIP) ∧
    doAgentAction [1, 1, 0, 2, 2, 0, 0, 0, 0] 2
      = ([1, 1, 0, 2, 2, 0, 0, 0, 0].set 2 AGENT_CHIP,
          some (decide (winnerAfterMove ([1, 1, 0, 2, 2, 0, 0, 0, 0].set 2 AGENT_CHIP)
            AGENT_CHIP 1 ≠ 0), true)) :=
  ⟨((winnerAfterMove_spec [1, 1, 1, 2, 2, 0, 0, 0, 0] AGENT_CHIP 1 0
      (by decide) (by decide) (by decide)).1).1,
    (((winnerAfterMove_spec [1, 1, 0, 2, 2, 0, 0, 0, 0] AGENT_CHIP 1 2
      (by decide) (by decide) (by decide)).2).2.1 (by decide) (by decide)).1⟩

/-- C4: in `TatetiEnv.step` the opponent's mark is placed exactly when the
agent's move was accepted and the winner code after the agent's move is 0
(game still open); the opponent's mark goes to a cell chosen among the
indices that are empty at that moment (so that cell held `CLEAN_SQUARE`),
and the done flag reported by `step` is the one holding after the
opponent's placement. -/
theorem opponent_move_spec (pick : List Nat → Nat) (b : List Nat) (action : Int)
    (hpick : ∀ l, l ≠ [] → pick l ∈ l) (h : 0 ≤ action ∧ action < 9) :
    (b.getD action.toNat 0 = CLEAN_SQUARE →
      winnerAfterMove (b.set action.toNat AGENT_CHIP) AGENT_CHIP 1 = 0 →
      ∃ j ∈ emptyIndices (b.set action.toNat AGENT_CHIP),
        (b.set action.toNat AGENT_CHIP).getD j 0 = CLEAN_SQUARE ∧
        (step pick b action).1 = (b.set action.toNat AGENT_CHIP).set j PLAYER_CHIP ∧
        ∃ r, (step pick b action).2 = Except.ok
          (r, winsFor ((b.set action.toNat AGENT_CHIP).set j PLAYER_CHIP) PLAYER_CHIP)) ∧
    (b.getD action.toNat 0 = CLEAN_SQUARE →
      winnerAfterMove (b.set action.toNat AGENT_CHIP) AGENT_CHIP 1 ≠ 0 →
      (step pick b action).1 = b.set action.toNat AGENT_CHIP) ∧
    (b.getD action.toNat 0 ≠ CLEAN_SQUARE → (step pick b action).1 = b) := by
  refine ⟨?_, ?_, ?_⟩
  · intro he hw
    have hne := (winnerAfterMove_eq_zero (by decide) hw).2
    refine ⟨pick (emptyIndices (b.set action.toNat AGENT_CHIP)), hpick _ hne, ?_, ?_, ?_⟩
    · have := (mem_emptyIndices.mp (hpick _ hne)).2
      simpa using this
    · rw [step_accepted_open pick b action h he hw hne]
    · rw [step_accepted_open pick b action h he hw hne]
      dsimp only
      refine ⟨rewardsTable (if winsFor ((b.set action.toNat AGENT_CHIP).set
          (pick (emptyIndices (b.set action.toNat AGENT_CHIP))) PLAYER_CHIP)
          PLAYER_CHIP = true then 2 else 0), ?_⟩
      cases hwf : winsFor ((b.set action.toNat AGENT_CHIP).set
          (pick (emptyIndices (b.set action.toNat AGENT_CHIP))) PLAYER_CHIP) PLAYER_CHIP <;>
        simp [hwf]
  · intro he hw
    rw [step_accepted_closed pick b action h he hw]
  · intro ho
    rw [step_occupied pick b action h ho]

/-- C4 witness: from the empty board, action 0 is accepted, the game is
still open, and the opponent then occupies a previously empty cell; the
reported flag matches the board after that placement. -/
theorem opponent_move_spec_witness :
    ∃ j ∈ emptyIndices (INITIAL_STATE.set 0 AGENT_CHIP),
      (INITIAL_STATE.set 0 AGENT_CHIP).getD j 0 = CLEAN_SQUARE ∧
      (step (fun l => l.headD 0) INITIAL_STATE 0).1
        = (INITIAL_STATE.set 0 AGENT_CHIP).set j PLAYER_CHIP ∧
      ∃ r, (step (fun l => l.headD 0) INITIAL_STATE 0).2 = Except.ok
        (r, winsFor ((INITIAL_STATE.set 0 AGENT_CHIP).set j PLAYER_CHIP) PLAYER_CHIP) :=
  (opponent_move_spec (fun l => l.headD 0) INITIAL_STATE 0 headD_mem
    (by decide)).1 (by decide) (by decide)

/-- C5: `TatetiEnv.step` on an in-range action returns reward 0 when the
move is rejected (cell occupied) while the done flag still reflects the
winner code computed on the unchanged board; when the move is accepted the
reward is the fixed table's value for the final winner code, the table
being {in progress: -1, agent win: +20, opponent win: -2, draw: -1}. -/
theorem step_reward_spec (pick : List Nat → Nat) (b : List Nat) (action : Int)
    (h : 0 ≤ action ∧ action < 9) :
    rewardsTable 0 = -1 ∧ rewardsTable 1 = 20 ∧ rewardsTable 2 = -2 ∧ rewardsTable 3 = -1 ∧
    (b.getD action.toNat 0 ≠ CLEAN_SQUARE →
      (step pick b action).2 = Except.ok (0,
        decide ((if winsFor b PLAYER_CHIP = true then 2
          else winnerAfterMove b AGENT_CHIP 1) ≠ 0))) ∧
    (b.getD action.toNat 0 = CLEAN_SQUARE →
      (step pick b action).2 = Except.ok
        (rewardsTable (if winsFor (step pick b action).1 PLAYER_CHIP = true then 2
            else winnerAfterMove (b.set action.toNat AGENT_CHIP) AGENT_CHIP 1),
          decide ((if winsFor (step pick b action).1 PLAYER_CHIP = true then 2
            else winnerAfterMove (b.set action.toNat AGENT_CHIP) AGENT_CHIP 1) ≠ 0))) := by
  refine ⟨rfl, rfl, rfl, rfl, ?_, ?_⟩
  · intro ho
    rw [step_occupied pick b action h ho]
  · intro he
    by_cases hw : winnerAfterMove (b.set action.toNat AGENT_CHIP) AGENT_CHIP 1 = 0
    · have hne := (winnerAfterMove_eq_zero (by decide) hw).2
      rw [step_accepted_open pick b action h he hw hne]
      dsimp only
      rw [hw]
    · rw [step_accepted_closed pick b action h he hw]

/-- C5 witness: a rejected move yields reward 0, and the accepted opening
move yields the table reward for the resulting winner code. -/
theorem step_reward_spec_witness :
    (step (fun l => l.headD 0) [1, 0, 0, 0, 0, 0, 0, 0, 0] 0).2 = Except.ok (0,
        decide ((if winsFor [1, 0, 0, 0, 0, 0, 0, 0, 0] PLAYER_CHIP = true then 2
          else winnerAfterMove [1, 0, 0, 0, 0, 0, 0, 0, 0] AGENT_CHIP 1) ≠ 0)) ∧
    (step (fun l => l.headD 0) INITIAL_STATE 0).2 = Except.ok
      (rewardsTable (if winsFor (step (fun l => l.headD 0) INITIAL_STATE 0).1
            PLAYER_CHIP = true then 2
          else winnerAfterMove (INITIAL_STATE.set 0 AGENT_CHIP) AGENT_CHIP 1),
        decide ((if winsFor (step (fun l => l.headD 0) INITIAL_STATE 0).1
            PLAYER_CHIP = true then 2
          else winnerAfterMove (INITIAL_STATE.set 0 AGENT_CHIP) AGENT_CHIP 1) ≠ 0)) :=
  ⟨(step_reward_spec (fun l => l.headD 0) [1, 0, 0, 0, 0, 0, 0, 0, 0] 0
      (by decide)).2.2.2.2.1 (by decide),
    (step_reward_spec (fun l => l.headD 0) INITIAL_STATE 0
      (by decide)).2.2.2.2.2 (by decide)⟩

/-- C9: on every board reachable from reset by `step` calls, every cell
holds exactly one of empty/agent/opponent, the total number of marks
equals the number of accepted agent moves plus the number of opponent
placements, and one more `step` never changes a non-empty cell (a mark is
never cleared or overwritten). -/
theorem board_monotone_and_counts (b : List Nat) (acc opp : Nat) (pick : List Nat → Nat)
    (action : Int) (hreach : Reach b acc opp) (hpick : ∀ l, l ≠ [] → pick l ∈ l) :
    (∀ x ∈ b, x = 0 ∨ x = 1 ∨ x = 2) ∧
    markCount b = acc + opp ∧
    (∀ i, b.getD i 0 ≠ CLEAN_SQUARE →
      ((step pick b action).1).getD i 0 = b.getD i 0) := by
  obtain ⟨⟨hlen, hval, _⟩, hmark⟩ := reach_inv hreach
  refine ⟨fun x hx => by have := hval x hx; omega, hmark, ?_⟩
  intro i hi
  have hi0 : b.getD i 0 ≠ 0 := by simpa using hi
  by_cases h : 0 ≤ action ∧ action < 9
  · by_cases he : b.getD action.toNat 0 = CLEAN_SQUARE
    · have hia : i ≠ action.toNat := by
        intro hh
        rw [hh] at hi0
        exact hi0 (by simpa using he)
      have hget1 : (b.set action.toNat AGENT_CHIP).getD i 0 = b.getD i 0 := by
        rw [getD_set]
        exact if_neg (fun hcon => hia hcon.1.symm)
      by_cases hw : winnerAfterMove (b.set action.toNat AGENT_CHIP) AGENT_CHIP 1 = 0
      · have hne := (winnerAfterMove_eq_zero (by decide) hw).2
        rw [step_accepted_open pick b action h he hw hne]
        dsimp only
        obtain ⟨hjlt, hj0⟩ := mem_emptyIndices.mp (hpick _ hne)
        have hij : i ≠ pick (emptyIndices (b.set action.toNat AGENT_CHIP)) := by
          intro hh
          rw [← hh] at hj0
          rw [hget1] at hj0
          exact hi0 hj0
        rw [getD_set, if_neg (fun hcon => hij hcon.1.symm)]
        exact hget1
      · rw [step_accepted_closed pick b action h he hw]
        dsimp only
        exact hget1
    · rw [step_occupied pick b action h he]
  · rw [step_out_of_range pick b action h]

/-- C9 witness: the reset board is reachable with zero moves of either
kind, all its cells are valid, and a step never rewrites a non-empty cell
of it. -/
theorem board_monotone_and_counts_witness :
    (∀ x ∈ INITIAL_STATE, x = 0 ∨ x = 1 ∨ x = 2) ∧
    markCount INITIAL_STATE = 0 + 0 ∧
    (∀ i, INITIAL_STATE.getD i 0 ≠ CLEAN_SQUARE →
      ((step (fun l => l.headD 0) INITIAL_STATE 0).1).getD i 0
        = INITIAL_STATE.getD i 0) :=
  board_monotone_and_counts INITIAL_STATE 0 0 (fun l => l.headD 0) 0 Reach.init headD_mem

/-- C1: on every reachable board, the terminal flag returned by a
successful `TatetiEnv.step` call is true exactly when, on the board as it
stands when `step` returns, some win line is fully occupied by a single
mark or no empty cell remains (including, vacuously, the impossible case
of the opponent filling the last empty cell: on reachable boards the
opponent always leaves at least one cell free when the flag is false). -/
theorem step_done_iff_game_over (b : List Nat) (acc opp : Nat) (pick : List Nat → Nat)
    (action : Int) (r : Int) (done : Bool) (hreach : Reach b acc opp)
    (hpick : ∀ l, l ≠ [] → pick l ∈ l)
    (hok : (step pick b action).2 = Except.ok (r, done)) :
    done = true ↔
      (WinsP (step pick b action).1 AGENT_CHIP ∨
        WinsP (step pick b action).1 PLAYER_CHIP ∨
        emptyIndices (step pick b action).1 = []) := by
  obtain ⟨hInv, -⟩ := reach_inv hreach
  have hlen : b.length = 9 := hInv.1
  by_cases h : 0 ≤ action ∧ action < 9
  · by_cases he : b.getD action.toNat 0 = CLEAN_SQUARE
    · have hlen1 : (b.set action.toNat AGENT_CHIP).length = 9 := by
        rw [List.length_set]
        exact hlen
      by_cases hw : winnerAfterMove (b.set action.toNat AGENT_CHIP) AGENT_CHIP 1 = 0
      · have hne := (winnerAfterMove_eq_zero (by decide) hw).2
        rw [step_accepted_open pick b action h he hw hne] at hok ⊢
        dsimp only at hok ⊢
        simp only [Except.ok.injEq, Prod.mk.injEq] at hok
        obtain ⟨-, hdone⟩ := hok
        subst hdone
        have hjmem := hpick _ hne
        obtain ⟨hjlt, hj0⟩ := mem_emptyIndices.mp hjmem
        have hlen2 : ((b.set action.toNat AGENT_CHIP).set
            (pick (emptyIndices (b.set action.toNat AGENT_CHIP))) PLAYER_CHIP).length = 9 := by
          rw [List.length_set]
          exact hlen1
        have hw1false : winsFor ((b.set action.toNat AGENT_CHIP).set
            (pick (emptyIndices (b.set action.toNat AGENT_CHIP))) PLAYER_CHIP)
            AGENT_CHIP = false := by
          rw [winsFor_set_of_ne (by decide) (by rw [hj0]; decide)]
          exact (winnerAfterMove_eq_zero (by decide) hw).1
        have hempties := empties_pos_after_opp hInv (by omega) (by simpa using he) hw hjmem
        rw [decide_eq_true_eq]
        by_cases hw2 : winsFor ((b.set action.toNat AGENT_CHIP).set
            (pick (emptyIndices (b.set action.toNat AGENT_CHIP))) PLAYER_CHIP)
            PLAYER_CHIP = true
        · rw [if_pos hw2]
          exact ⟨fun _ => Or.inr (Or.inl ((winsFor_iff_winsP hlen2).mp hw2)),
            fun _ => by decide⟩
        · rw [if_neg hw2]
          constructor
          · intro hh
            exact absurd rfl hh
          · rintro (hh | hh | hh)
            · exact absurd ((winsFor_iff_winsP hlen2).mpr hh) (by rw [hw1false]; decide)
            · exact absurd ((winsFor_iff_winsP hlen2).mpr hh) hw2
            · exact absurd hh hempties
      · rw [step_accepted_closed pick b action h he hw] at hok ⊢
        dsimp only at hok ⊢
        simp only [Except.ok.injEq, Prod.mk.injEq] at hok
        obtain ⟨-, hdone⟩ := hok
        subst hdone
        rw [decide_eq_true_eq]
        by_cases hw2 : winsFor (b.set action.toNat AGENT_CHIP) PLAYER_CHIP = true
        · rw [if_pos hw2]
          exact ⟨fun _ => Or.inr (Or.inl ((winsFor_iff_winsP hlen1).mp hw2)),
            fun _ => by decide⟩
        · rw [if_neg hw2]
          rcases winnerAfterMove_cases (b.set action.toNat AGENT_CHIP) AGENT_CHIP 1 with
            ⟨h1, h2⟩ | ⟨h1, h2, h3⟩ | ⟨h1, h2⟩
          · rw [h1]
            exact ⟨fun _ => Or.inl ((winsFor_iff_winsP hlen1).mp h2), fun _ => by decide⟩
          · rw [h1]
            exact ⟨fun _ => Or.inr (Or.inr h3), fun _ => by decide⟩
          · exact absurd h1 hw
    · rw [step_occupied pick b action h he] at hok ⊢
      dsimp only at hok ⊢
      simp only [Except.ok.injEq, Prod.mk.injEq] at hok
      obtain ⟨-, hdone⟩ := hok
      subst hdone
      rw [decide_eq_true_eq]
      by_cases hw2 : winsFor b PLAYER_CHIP = true
      · rw [if_pos hw2]
        exact ⟨fun _ => Or.inr (Or.inl ((winsFor_iff_winsP hlen).mp hw2)),
          fun _ => by decide⟩
      · rw [if_neg hw2]
        rcases winnerAfterMove_cases b AGENT_CHIP 1 with
          ⟨h1, h2⟩ | ⟨h1, h2, h3⟩ | ⟨h1, h2, h3⟩
        · rw [h1]
          exact ⟨fun _ => Or.inl ((winsFor_iff_winsP hlen).mp h2), fun _ => by decide⟩
        · rw [h1]
          exact ⟨fun _ => Or.inr (Or.inr h3), fun _ => by decide⟩
        · rw [h1]
          constructor
          · intro hh
            exact absurd rfl hh
          · rintro (hh | hh | hh)
            · exact absurd ((winsFor_iff_winsP hlen).mpr hh) (by rw [h2]; decide)
            · exact absurd ((winsFor_iff_winsP hlen).mpr hh) hw2
            · exact absurd hh h3
  · rw [step_out_of_range pick b action h] at hok
    simp at hok

/-- C1 witness: the opening move from the reset board is not terminal, and
indeed after it no line is owned and empty cells remain. -/
theorem step_done_iff_game_over_witness :
    false = true ↔
      (WinsP (step (fun l => l.headD 0) INITIAL_STATE 0).1 AGENT_CHIP ∨
        WinsP (step (fun l => l.headD 0) INITIAL_STATE 0).1 PLAYER_CHIP ∨
        emptyIndices (step (fun l => l.headD 0) INITIAL_STATE 0).1 = []) :=
  step_done_iff_game_over INITIAL_STATE 0 0 (fun l => l.headD 0) 0 (-1) false
    Reach.init headD_mem (by decide)

/-- C10 witness: on the opening move the opponent's candidate list is
non-empty and the step does not end in `IndexError`. -/
theorem opponent_choice_never_empty_witness :
    emptyIndices (INITIAL_STATE.set 0 AGENT_CHIP) ≠ [] ∧
    (step (fun l => l.headD 0) INITIAL_STATE 0).2 ≠ Except.error PyErr.indexError :=
  ⟨(opponent_choice_never_empty (fun l => l.headD 0) INITIAL_STATE 0).1
      (by decide) (by decide),
    (opponent_choice_never_empty (fun l => l.headD 0) INITIAL_STATE 0).2⟩

end Tateti
